import Mathlib

/-!
Verification of the net-configurator reconciliation engine.

Shallow embedding of the Python sources under
`src/net-configurator/src/net_configurator/`: the content-addressed
naming scheme (`namer.py`), the entity model (`rule.py` and the
canonical entity classes described by the specification), the generic
discrepancy finder (`discrepancy_finder.py`), the inert optimizer
(`optimizer.py`), the ordered apply protocol and retry machinery of
`developer.py`, and the JSON file writer's rule deletion
(`json_file_readerwriter.py`).
-/

set_option maxRecDepth 10000

/-! ## SHA-1 over byte lists (embedding of Python's hashlib.sha1) -/

/-- Truncation to a 32-bit word. -/
def w32 (n : Nat) : Nat := n % 4294967296

/-- Left rotation of a 32-bit word by `k` bits. -/
def rotl (k x : Nat) : Nat := w32 (x * 2 ^ k) + x / 2 ^ (32 - k)

/-- Bitwise complement of a 32-bit word. -/
def not32 (x : Nat) : Nat := 4294967295 - x

/-- UTF-8 encoding of a single Unicode scalar value, as Python's
`str.encode()` produces for each character. -/
def utf8EncodeChar (c : Char) : List Nat :=
  let n := c.toNat
  if n < 128 then [n]
  else if n < 2048 then [192 + n / 64, 128 + n % 64]
  else if n < 65536 then [224 + n / 4096, 128 + n / 64 % 64, 128 + n % 64]
  else [240 + n / 262144, 128 + n / 4096 % 64, 128 + n / 64 % 64, 128 + n % 64]

/-- UTF-8 encoding of a string as a list of byte values. -/
def utf8Encode (s : String) : List Nat :=
  s.data.flatMap utf8EncodeChar

/-- Big-endian 8-byte encoding of a (bit-length) counter. -/
def bigEndian8 (n : Nat) : List Nat :=
  [n / 2 ^ 56 % 256, n / 2 ^ 48 % 256, n / 2 ^ 40 % 256, n / 2 ^ 32 % 256,
   n / 2 ^ 24 % 256, n / 2 ^ 16 % 256, n / 2 ^ 8 % 256, n % 256]

/-- Big-endian 4-byte decomposition of a 32-bit word. -/
def bigEndian4 (n : Nat) : List Nat :=
  [n / 2 ^ 24 % 256, n / 2 ^ 16 % 256, n / 2 ^ 8 % 256, n % 256]

/-- SHA-1 message padding: append 0x80, zero bytes up to 56 mod 64, then
the 8-byte big-endian bit length. -/
def sha1Pad (msg : List Nat) : List Nat :=
  msg ++ 128 :: List.replicate ((119 - msg.length % 64) % 64) 0 ++ bigEndian8 (msg.length * 8)

/-- Four consecutive bytes grouped into big-endian 32-bit words. -/
def bytesToWords : List Nat → List Nat
  | b0 :: b1 :: b2 :: b3 :: rest => (((b0 * 256 + b1) * 256 + b2) * 256 + b3) :: bytesToWords rest
  | _ => []

/-- Splitting a word list into chunks of 16 words (fuel-driven so that the
recursion is structural). -/
def wordChunksAux : Nat → List Nat → List (List Nat)
  | 0, _ => []
  | _, [] => []
  | fuel + 1, ws => ws.take 16 :: wordChunksAux fuel (ws.drop 16)

/-- Splitting a word list into chunks of 16 words. -/
def wordChunks (ws : List Nat) : List (List Nat) :=
  wordChunksAux ws.length ws

/-- SHA-1 message-schedule extension: `acc` holds the words produced so
far most-recent-first; each step prepends
`rotl 1 (w[t-3] xor w[t-8] xor w[t-14] xor w[t-16])`. -/
def sha1Schedule : Nat → List Nat → List Nat
  | 0, acc => acc
  | t + 1, acc =>
      sha1Schedule t
        (rotl 1 (Nat.xor (Nat.xor (acc.getD 2 0) (acc.getD 7 0)) (Nat.xor (acc.getD 13 0) (acc.getD 15 0))) :: acc)

/-- One SHA-1 compression round at index `t` with schedule word `wt`. -/
def sha1Round (st : Nat × Nat × Nat × Nat × Nat) (twt : Nat × Nat) : Nat × Nat × Nat × Nat × Nat :=
  let (a, b, c, d, e) := st
  let t := twt.1
  let f :=
    if t < 20 then Nat.lor (Nat.land b c) (Nat.land (not32 b) d)
    else if t < 40 then Nat.xor (Nat.xor b c) d
    else if t < 60 then Nat.lor (Nat.lor (Nat.land b c) (Nat.land b d)) (Nat.land c d)
    else Nat.xor (Nat.xor b c) d
  let k :=
    if t < 20 then 1518500249
    else if t < 40 then 1859775393
    else if t < 60 then 2400959708
    else 3395469782
  (w32 (rotl 5 a + f + e + k + twt.2), a, rotl 30 b, c, d)

/-- Processing one 16-word chunk against the running hash state. -/
def sha1ProcessChunk (h : Nat × Nat × Nat × Nat × Nat) (chunk : List Nat) : Nat × Nat × Nat × Nat × Nat :=
  let ws := (sha1Schedule 64 chunk.reverse).reverse
  let (h0, h1, h2, h3, h4) := h
  let (a, b, c, d, e) := ((List.range 80).zip ws).foldl sha1Round (h0, h1, h2, h3, h4)
  (w32 (h0 + a), w32 (h1 + b), w32 (h2 + c), w32 (h3 + d), w32 (h4 + e))

/-- SHA-1 digest of a byte list, as the five 32-bit state words. -/
def sha1Digest (msg : List Nat) : Nat × Nat × Nat × Nat × Nat :=
  (wordChunks (bytesToWords (sha1Pad msg))).foldl sha1ProcessChunk
    (1732584193, 4023233417, 2562383102, 271733878, 3285377520)

/-- Lower-case hex character for a value below 16. -/
def hexChar (n : Nat) : Char :=
  if n < 10 then Char.ofNat (48 + n) else Char.ofNat (87 + n)

/-- Two lower-case hex characters of a byte. -/
def hexByte (b : Nat) : List Char := [hexChar (b / 16), hexChar (b % 16)]

/-- Eight lower-case hex characters of a 32-bit word, big-endian. -/
def wordHex (w : Nat) : List Char := (bigEndian4 w).flatMap hexByte

/-- Lower-case hex digest string of the SHA-1 of a byte list, matching
Python's `hashlib.sha1(...).hexdigest()`. -/
def sha1Hex (msg : List Nat) : String :=
  let (h0, h1, h2, h3, h4) := sha1Digest msg
  String.mk (wordHex h0 ++ wordHex h1 ++ wordHex h2 ++ wordHex h3 ++ wordHex h4)

/-! ## Content Addressor (namer.py) -/

/-- Modelled from the spec: `constants.py` is absent from the sources;
the spec fixes "a fixed literal prefix (e.g. `X-`)" and the repository's
tests pin the value `X-`. -/
def IDENTIFIER_PREFIX_STRING : String := "X-"

/-- Embedding of `Namer.generate_identifier` (namer.py): SHA-1 of the
UTF-8 bytes of the argument, hex-encoded, prefixed. -/
def Namer.generate_identifier (json_dump : String) : String :=
  IDENTIFIER_PREFIX_STRING ++ sha1Hex (utf8Encode json_dump)

/-! ## Entity model

The canonical entity classes (`NetworkService`, `PacketFilter`, `Owner`,
the content-addressed `Rule`) are imported throughout the sources from
`net_configurator.rule` but are absent from the source tree (only the
older `RuleFilter`/`RulePeer` variant of `rule.py` is present); they are
modelled from the specification below. -/

/-- The protocol literal of a network service: `tcp`, `udp` or `icmp`. -/
inductive Protocol where
  | tcp
  | udp
  | icmp
  deriving DecidableEq

/-- Canonical text of a protocol literal. -/
def Protocol.serialize : Protocol → String
  | .tcp => "tcp"
  | .udp => "udp"
  | .icmp => "icmp"

/-- Numeric index of a protocol literal, for canonical ordering. -/
def Protocol.idx : Protocol → Nat
  | .tcp => 0
  | .udp => 1
  | .icmp => 2

/-- Modelled from the spec: a NetworkService is a protocol with an
optional port or port range (spec section 3); the class itself is absent
from the sources. -/
structure NetworkService where
  protocol : Protocol
  port_low : Option Nat := none
  port_high : Option Nat := none
  deriving DecidableEq

/-- Injection of an optional port into a sortable number. -/
def optKey : Option Nat → Nat
  | none => 0
  | some n => n + 1

/-- Injective numeric key of a network service, used to sort service
collections canonically. -/
def NetworkService.key (s : NetworkService) : Nat :=
  Nat.pair s.protocol.idx (Nat.pair (optKey s.port_low) (optKey s.port_high))

/-- Canonical ordering of network services by injective key. -/
def svcLe (a b : NetworkService) : Prop := a.key ≤ b.key

instance : DecidableRel svcLe := fun a b => Nat.decLe a.key b.key

/-- Canonical text of an optional port. -/
def optPortSerialize : Option Nat → String
  | none => "null"
  | some p => Nat.repr p

/-- Canonical text of a network service. -/
def NetworkService.serialize (s : NetworkService) : String :=
  s.protocol.serialize ++ ":" ++ optPortSerialize s.port_low ++ ":" ++ optPortSerialize s.port_high

/-- Modelled from the spec: a PacketFilter carries an unordered set of
network services; supplied services are deduplicated and sorted into a
canonical order before hashing (spec sections 3 and 4.1). -/
structure PacketFilter where
  services : List NetworkService
  deriving DecidableEq

/-- Canonical form of a supplied service collection: deduplicate, then
sort by the canonical ordering. -/
def canonicalServices (l : List NetworkService) : List NetworkService :=
  List.insertionSort svcLe l.dedup

/-- Modelled from the spec: PacketFilter construction canonicalizes the
supplied services. -/
def mkPacketFilter (l : List NetworkService) : PacketFilter :=
  ⟨canonicalServices l⟩

/-- Canonical serialization of a packet filter's service set. -/
def PacketFilter.serialize (f : PacketFilter) : String :=
  "[" ++ String.intercalate "," (f.services.map NetworkService.serialize) ++ "]"

/-- Modelled from the spec: a PacketFilter is identified by the content
hash of its canonical serialization. -/
def PacketFilter.identifier (f : PacketFilter) : String :=
  Namer.generate_identifier f.serialize

/-- Modelled from the spec: an Owner is an opaque tag string; its
identifier is the tag itself (spec section 3, `test_rule_owner.py`). -/
structure Owner where
  name : String
  deriving DecidableEq

/-- The identifier of an owner is its tag string. -/
def Owner.identifier (o : Owner) : String := o.name

/-- An IPv4 endpoint low value: a single address or a network/CIDR,
with addresses as numeric values. -/
inductive IPv4Value where
  | addr (a : Nat)
  | net (a : Nat) (pfx : Nat)
  deriving DecidableEq

/-- Canonical text of an IPv4 low value. -/
def IPv4Value.serialize : IPv4Value → String
  | .addr a => Nat.repr a
  | .net a pfx => Nat.repr a ++ "/" ++ Nat.repr pfx

/-- Modelled from the spec: a NetworkPeer is a single address, a
network, or an inclusive address range (spec section 3). -/
structure NetworkPeer where
  ip_low : IPv4Value
  ip_high : Option Nat := none
  deriving DecidableEq

/-- Canonical text of a network peer. -/
def NetworkPeer.serialize (p : NetworkPeer) : String :=
  p.ip_low.serialize ++ "-" ++ (match p.ip_high with | none => "null" | some h => Nat.repr h)

/-- Modelled from the spec: the canonical Rule value — ordered sources
and destinations, one packet filter, and a set of owner tags (supplied
as a list whose order and duplicates are irrelevant to identity). -/
structure CRule where
  sources : List NetworkPeer
  destinations : List NetworkPeer
  packet_filter : PacketFilter
  owners : List Owner
  deriving DecidableEq

/-- Canonical owner-identifier list: deduplicate and sort the tags. -/
def canonicalOwnerIds (os : List Owner) : List String :=
  List.insertionSort (fun a b : String => a ≤ b) (os.map Owner.identifier).dedup

/-- Modelled from the spec: the canonical serialization of a rule's
semantic content — sources in order, destinations in order, the filter's
identifier, and the canonicalized owner set (spec sections 3 and 4.1). -/
def CRule.serialize (r : CRule) : String :=
  "src=[" ++ String.intercalate "," (r.sources.map NetworkPeer.serialize) ++
  "];dst=[" ++ String.intercalate "," (r.destinations.map NetworkPeer.serialize) ++
  "];flt=" ++ r.packet_filter.identifier ++
  ";own=[" ++ String.intercalate "," (canonicalOwnerIds r.owners) ++ "]"

/-- Modelled from the spec: a Rule's identifier is the content hash of
its canonical serialization. -/
def CRule.identifier (r : CRule) : String :=
  Namer.generate_identifier r.serialize

/-! ## The source tree's rule.py variant: RuleFilter and RulePeer -/

/-- Embedding of `RuleFilter` (rule.py): protocol with optional port or
port range, as left by pydantic validation. -/
structure RuleFilter where
  protocol : Protocol
  port_low : Option Nat
  port_high : Option Nat
  deriving DecidableEq

/-- Pydantic field bound `ge=0, le=65535` on an optional port (ports are
naturals here, so only the upper bound can fail). -/
def validatePortBound : Option Nat → Except String (Option Nat)
  | none => .ok none
  | some p => if p ≤ 65535 then .ok (some p) else .error "Input should be less than or equal to 65535"

/-- Embedding of validator `RuleFilter.tcpudp_has_port_low`: ICMP drops
any port; TCP/UDP require one. -/
def tcpudp_has_port_low (protocol : Protocol) (value : Option Nat) : Except String (Option Nat) :=
  if protocol = .icmp then .ok none
  else
    match value with
    | none => .error "TCP/UDP requires a port number"
    | some v => .ok (some v)

/-- Embedding of validator `RuleFilter.port_high_ge_low`: drops the high
port for non-ranges, rejects inverted ranges and ranges from port 0. -/
def port_high_ge_low (port_low value : Option Nat) : Except String (Option Nat) :=
  match port_low, value with
  | none, _ => .ok none
  | some _, none => .ok none
  | some pl, some v =>
    if v = pl then .ok none
    else if v < pl then .error "port_high cannot be lower than port_low"
    else if pl = 0 then .error "Port 0 cannot be used in ranges"
    else .ok (some v)

/-- Embedding of `RuleFilter` construction: pydantic validates fields in
declaration order — bounds, then the two validators. -/
def mkRuleFilter (protocol : Protocol) (port_low port_high : Option Nat) : Except String RuleFilter :=
  match validatePortBound port_low with
  | .error m => .error m
  | .ok pl0 =>
    match tcpudp_has_port_low protocol pl0 with
    | .error m => .error m
    | .ok pl =>
      match validatePortBound port_high with
      | .error m => .error m
      | .ok ph0 =>
        match port_high_ge_low pl ph0 with
        | .error m => .error m
        | .ok ph => .ok ⟨protocol, pl, ph⟩

/-- Embedding of `RulePeer` (rule.py): single IP, network, or range, as
left by pydantic validation. -/
structure RulePeer where
  ip_low : IPv4Value
  ip_high : Option Nat
  deriving DecidableEq

/-- Embedding of validator `RulePeer.ip_high_ge_low`: no range on a
network low value, no inverted range, equal bounds collapse to a single
address. -/
def ip_high_ge_low (ip_low : IPv4Value) (value : Option Nat) : Except String (Option Nat) :=
  match value with
  | none => .ok none
  | some v =>
    match ip_low with
    | .net _ _ => .error "Range is not possible when ip_low is network address"
    | .addr a =>
      if v < a then .error "ip_high cannot be lower than ip_low"
      else if v = a then .ok none
      else .ok (some v)

/-- Embedding of `RulePeer` construction. -/
def mkRulePeer (ip_low : IPv4Value) (ip_high : Option Nat) : Except String RulePeer :=
  match ip_high_ge_low ip_low ip_high with
  | .error m => .error m
  | .ok ih => .ok ⟨ip_low, ih⟩

/-- Whether a fallible construction succeeded. -/
def isOkE {ε α : Type} : Except ε α → Bool
  | .ok _ => true
  | .error _ => false

/-! ## Discrepancy Finder (discrepancy_finder.py) -/

/-- Embedding of the `IdentifiedModelInterface` protocol: an entity kind
exposing a string identifier. -/
class IdentifiedModelInterface (α : Type) where
  identifier : α → String

instance : IdentifiedModelInterface CRule := ⟨CRule.identifier⟩

instance : IdentifiedModelInterface PacketFilter := ⟨PacketFilter.identifier⟩

instance : IdentifiedModelInterface Owner := ⟨Owner.identifier⟩

/-- Embedding of `BaseDiscrepancyFinder`: the two element sets it is
constructed from. -/
structure BaseDiscrepancyFinder (α : Type) [DecidableEq α] where
  desired_elements : Finset α
  existing_elements : Finset α

/-- Embedding of `BaseDiscrepancyFinder.get_elements_to_delete`:
identifiers of `existing.difference(desired)`. -/
def BaseDiscrepancyFinder.get_elements_to_delete {α : Type} [DecidableEq α] [IdentifiedModelInterface α]
    (f : BaseDiscrepancyFinder α) : Finset String :=
  (f.existing_elements \ f.desired_elements).image IdentifiedModelInterface.identifier

/-- Embedding of `BaseDiscrepancyFinder.get_elements_to_add`:
`desired.difference(existing)` as full values. -/
def BaseDiscrepancyFinder.get_elements_to_add {α : Type} [DecidableEq α]
    (f : BaseDiscrepancyFinder α) : Finset α :=
  f.desired_elements \ f.existing_elements

/-- Embedding of `RuleDiscrepancyFinder` (instantiation at rules). -/
abbrev RuleDiscrepancyFinder := BaseDiscrepancyFinder CRule

/-- Embedding of `FilterDiscrepancyFinder` (instantiation at filters). -/
abbrev FilterDiscrepancyFinder := BaseDiscrepancyFinder PacketFilter

/-- Embedding of `OwnerDiscrepancyFinder` (instantiation at owners). -/
abbrev OwnerDiscrepancyFinder := BaseDiscrepancyFinder Owner

/-! ## Optimizer (optimizer.py) -/

/-- Embedding of `Optimizer`: holds the input rules. -/
structure Optimizer where
  rules : Finset CRule

/-- Embedding of `Optimizer.optimize`: the method body is empty, the
stored rules are untouched. -/
def Optimizer.optimize (o : Optimizer) : Optimizer := o

/-- Embedding of `Optimizer.get_rules`. -/
def Optimizer.get_rules (o : Optimizer) : Finset CRule := o.rules

/-- Embedding of `Optimizer.get_filters`: the set comprehension
of each rule's packet filter. -/
def Optimizer.get_filters (o : Optimizer) : Finset PacketFilter :=
  o.rules.image CRule.packet_filter

/-- Embedding of `Optimizer.get_owners`: the union of the rules' owner
sets. -/
def Optimizer.get_owners (o : Optimizer) : Finset Owner :=
  o.rules.biUnion (fun r => r.owners.toFinset)

/-! ## Ordered apply protocol (developer.py, __apply_source_to_target) -/

/-- A mutation call issued to the target collaborator. -/
inductive TargetOp where
  | delete_rule (id : String)
  | delete_filter (id : String)
  | delete_owner (id : String)
  | add_owner (o : Owner)
  | add_filter (f : PacketFilter)
  | add_rule (r : CRule)
  | apply_changes
  deriving DecidableEq

/-- Embedding of `Developer.__process_elements`: a context manager that
issues the finder's deletions on entry and its additions on exit. -/
def processElements {α : Type} (toDelete : List String) (toAdd : List α)
    (deleteMethod : String → TargetOp) (addMethod : α → TargetOp) : List TargetOp × List TargetOp :=
  (toDelete.map deleteMethod, toAdd.map addMethod)

/-- Embedding of the call trace of `Developer.__apply_source_to_target`:
the `with` statement enters the rule, filter and owner context managers
in that order, runs the empty body, exits them in reverse order, and a
single `apply_changes` follows.  The six lists enumerate the respective
discrepancy-finder results. -/
def applySourceToTargetTrace (delRules : List String) (addRules : List CRule)
    (delFilters : List String) (addFilters : List PacketFilter)
    (delOwners : List String) (addOwners : List Owner) : List TargetOp :=
  let pr := processElements delRules addRules TargetOp.delete_rule TargetOp.add_rule
  let pf := processElements delFilters addFilters TargetOp.delete_filter TargetOp.add_filter
  let po := processElements delOwners addOwners TargetOp.delete_owner TargetOp.add_owner
  pr.1 ++ pf.1 ++ po.1 ++ po.2 ++ pf.2 ++ pr.2 ++ [TargetOp.apply_changes]

/-- The fixed position of a mutation call kind in the apply schedule. -/
def TargetOp.phase : TargetOp → Nat
  | .delete_rule _ => 0
  | .delete_filter _ => 1
  | .delete_owner _ => 2
  | .add_owner _ => 3
  | .add_filter _ => 4
  | .add_rule _ => 5
  | .apply_changes => 6

/-- Whether a call deletes an entity. -/
def TargetOp.isDelete : TargetOp → Bool
  | .delete_rule _ | .delete_filter _ | .delete_owner _ => true
  | _ => false

/-- Whether a call adds an entity. -/
def TargetOp.isAdd : TargetOp → Bool
  | .add_owner _ | .add_filter _ | .add_rule _ => true
  | _ => false

/-! ## Retry machinery (developer.py, tenacity `Retrying` loops)

One attempt of a phase either succeeds, raises a `RecoverableError`, or
raises a `FatalError`; `att n` is the outcome of the `n`-th attempt
(0-indexed) and `dur n` its duration.  The loop mirrors
`Retrying(stop=stop_after_attempt(count) | stop_after_delay(timeout),
wait=wait_fixed(delay), retry=retry_if_exception_type(RecoverableError),
reraise=True, before=recreate)`: the `before` hook rebuilds the
collaborator from its factory ahead of every attempt, a non-matching
(fatal) exception is re-raised at once, a matching one is re-raised as
soon as either stop condition holds, and otherwise the loop sleeps for
the fixed delay and retries. -/

/-- Outcome of a single attempt of a phase. -/
inductive AttemptOutcome (α ε : Type) where
  | ok (a : α)
  | recoverable (e : ε)
  | fatal (e : ε)
  deriving DecidableEq

/-- Observable events of the retry loop: a factory (re)creation of the
collaborator, the attempt itself, and the fixed-delay sleep. -/
inductive RetryEvent where
  | create
  | attempt (n : Nat)
  | sleep
  deriving DecidableEq

/-- Retry tuning of one phase: attempt count, total time budget, fixed
delay between attempts. -/
structure RetryPolicy where
  retry_count : Nat
  retry_timeout : Nat
  retry_delay : Nat

/-- Result of a retry loop: a value, or the last raised error together
with whether it was fatal. -/
inductive RetryResult (α ε : Type) where
  | ok (a : α)
  | failed (isFatal : Bool) (cause : ε)

/-- The retry loop.  `remaining` is `retry_count - n` (so the
`stop_after_attempt` test "attempt number ≥ count" is `remaining ≤ 1`),
`n` the 0-indexed attempt number, `elapsed` the time consumed so far;
`stop_after_delay` compares the elapsed time after the failed attempt
against the timeout. -/
def retryGo {α ε : Type} (pol : RetryPolicy) (att : Nat → AttemptOutcome α ε) (dur : Nat → Nat) :
    Nat → Nat → Nat → RetryResult α ε × List RetryEvent
  | remaining, n, elapsed =>
    match att n, remaining with
    | .ok a, _ => (.ok a, [.create, .attempt n])
    | .fatal e, _ => (.failed true e, [.create, .attempt n])
    | .recoverable e, 0 => (.failed false e, [.create, .attempt n])
    | .recoverable e, 1 => (.failed false e, [.create, .attempt n])
    | .recoverable e, r + 2 =>
      if pol.retry_timeout ≤ elapsed + dur n then (.failed false e, [.create, .attempt n])
      else
        let rest := retryGo pol att dur (r + 1) (n + 1) (elapsed + dur n + pol.retry_delay)
        (rest.1, .create :: .attempt n :: .sleep :: rest.2)

/-- A whole retried phase, started with the full attempt budget. -/
def retryPhase {α ε : Type} (pol : RetryPolicy) (att : Nat → AttemptOutcome α ε) (dur : Nat → Nat) :
    RetryResult α ε × List RetryEvent :=
  retryGo pol att dur pol.retry_count 0 0

/-- The terminal errors of `Developer.run`: `SourceError` and
`TargetError`, each wrapping the underlying cause. -/
inductive DevError (ε : Type) where
  | sourceError (cause : ε)
  | targetError (cause : ε)

/-- Embedding of `Developer.__read_source_rules_with_retries`: any error
left over by the retry loop — an exhausted recoverable or a fatal — is
re-raised as `SourceError` wrapping it. -/
def read_source_rules_with_retries {α ε : Type} (pol : RetryPolicy) (att : Nat → AttemptOutcome α ε)
    (dur : Nat → Nat) : Except (DevError ε) α × List RetryEvent :=
  match retryPhase pol att dur with
  | (.ok a, evs) => (.ok a, evs)
  | (.failed _ e, evs) => (.error (.sourceError e), evs)

/-- Embedding of `Developer.__apply_source_to_target_with_retries`: as
for the source phase, with `TargetError` as the terminal wrapper. -/
def apply_source_to_target_with_retries {ε : Type} (pol : RetryPolicy) (att : Nat → AttemptOutcome Unit ε)
    (dur : Nat → Nat) : Except (DevError ε) Unit × List RetryEvent :=
  match retryPhase pol att dur with
  | (.ok a, evs) => (.ok a, evs)
  | (.failed _ e, evs) => (.error (.targetError e), evs)

/-- Embedding of `Developer.run`: read the source with retries, run the
optimizer, project the desired filters and owners, then apply to the
target with retries.  The target phase's attempts depend on the desired
triple handed to it. -/
def Developer.run {ε : Type} (spol tpol : RetryPolicy) (satt : Nat → AttemptOutcome (Finset CRule) ε)
    (sdur : Nat → Nat)
    (tatt : Finset CRule → Finset PacketFilter → Finset Owner → Nat → AttemptOutcome Unit ε)
    (tdur : Nat → Nat) : Except (DevError ε) Unit :=
  match read_source_rules_with_retries spol satt sdur with
  | (.error e, _) => .error e
  | (.ok desired_rules, _) =>
    let opt := Optimizer.optimize (Optimizer.mk desired_rules)
    (apply_source_to_target_with_retries tpol
      (tatt opt.get_rules opt.get_filters opt.get_owners) tdur).1

/-- The trace of a run whose first `k` attempts all fail with a
recoverable error and whose loop stops after attempt `k` (0-indexed):
create, attempt, sleep, create, attempt, sleep, …, create, attempt. -/
def mkRetryTrace : Nat → Nat → List RetryEvent
  | n, 0 => [.create, .attempt n]
  | n, k + 1 => .create :: .attempt n :: .sleep :: mkRetryTrace (n + 1) k

/-- Elapsed time at the stop check following attempt `m` (0-indexed):
the durations of attempts `0..m` plus `m` fixed delays. -/
def checkElapsed (pol : RetryPolicy) (dur : Nat → Nat) (m : Nat) : Nat :=
  Finset.sum (Finset.range (m + 1)) dur + m * pol.retry_delay

/-! ## JSON file writer rule deletion (json_file_readerwriter.py) -/

/-- Embedding of `JSONFileReaderWriter.delete_rule` (and of the
identical `JSONFileWriter.delete_rule` in rules_target.py): find the
first stored rule carrying the identifier, discard it if present, do
nothing otherwise.  The stored Python set is embedded as the list of its
elements. -/
def JSONFileReaderWriter.delete_rule (rules : List CRule) (rule_identifier : String) : List CRule :=
  match rules.find? (fun rule => rule.identifier == rule_identifier) with
  | some rule_to_delete => rules.erase rule_to_delete
  | none => rules

/-- `optKey` is injective. -/
lemma optKey_inj {x y : Option Nat} (h : optKey x = optKey y) : x = y := by
  cases x <;> cases y <;> simp [optKey] at h ⊢ <;> omega

/-- `Protocol.idx` is injective. -/
lemma Protocol.idx_inj {p q : Protocol} (h : p.idx = q.idx) : p = q := by
  cases p <;> cases q <;> simp_all [Protocol.idx]

/-- `NetworkService.key` is injective. -/
lemma NetworkService.key_inj {a b : NetworkService} (h : a.key = b.key) : a = b := by
  unfold NetworkService.key at h
  rw [Nat.pair_eq_pair] at h
  obtain ⟨h1, h2⟩ := h
  rw [Nat.pair_eq_pair] at h2
  obtain ⟨pa, la, ha⟩ := a
  obtain ⟨pb, lb, hb⟩ := b
  simp only at h1 h2
  cases Protocol.idx_inj h1
  cases optKey_inj h2.1
  cases optKey_inj h2.2
  rfl

instance : IsTotal NetworkService svcLe := ⟨fun a b => Nat.le_total a.key b.key⟩

instance : IsTrans NetworkService svcLe := ⟨fun _ _ _ => Nat.le_trans⟩

instance : IsAntisymm NetworkService svcLe :=
  ⟨fun _ _ h1 h2 => NetworkService.key_inj (Nat.le_antisymm h1 h2)⟩

/-- Canonicalization of a service collection is invariant under
permutation of the supplied services. -/
lemma canonicalServices_perm {l1 l2 : List NetworkService} (h : l1.Perm l2) :
    canonicalServices l1 = canonicalServices l2 := by
  unfold canonicalServices
  refine List.eq_of_perm_of_sorted ?_ (List.sorted_insertionSort svcLe _)
    (List.sorted_insertionSort svcLe _)
  exact ((List.perm_insertionSort svcLe _).trans h.dedup).trans
    (List.perm_insertionSort svcLe _).symm

/-- The canonical owner-identifier list depends only on the owner set. -/
lemma canonicalOwnerIds_sameSet {o1 o2 : List Owner} (h : o1.toFinset = o2.toFinset) :
    canonicalOwnerIds o1 = canonicalOwnerIds o2 := by
  unfold canonicalOwnerIds
  have hmem : ∀ x : Owner, x ∈ o1 ↔ x ∈ o2 := fun x => by
    rw [← List.mem_toFinset, h, List.mem_toFinset]
  have hperm : (o1.map Owner.identifier).dedup.Perm (o2.map Owner.identifier).dedup := by
    rw [List.perm_ext_iff_of_nodup (List.nodup_dedup _) (List.nodup_dedup _)]
    intro a
    simp only [List.mem_dedup, List.mem_map]
    constructor
    · rintro ⟨o, ho, rfl⟩
      exact ⟨o, (hmem o).mp ho, rfl⟩
    · rintro ⟨o, ho, rfl⟩
      exact ⟨o, (hmem o).mpr ho, rfl⟩
  refine List.eq_of_perm_of_sorted ?_ (List.sorted_insertionSort _ _)
    (List.sorted_insertionSort _ _)
  exact ((List.perm_insertionSort _ _).trans hperm).trans (List.perm_insertionSort _ _).symm

/-! ## Concrete sample entities (for scenario instances) -/

/-- A tcp/80 service. -/
def svcTcp80 : NetworkService := ⟨Protocol.tcp, some 80, none⟩

/-- An icmp service. -/
def svcIcmp : NetworkService := ⟨Protocol.icmp, none, none⟩

/-- A udp/514 service. -/
def svcUdp514 : NetworkService := ⟨Protocol.udp, some 514, none⟩

/-- Sample peer 1. -/
def peerA : NetworkPeer := ⟨IPv4Value.addr 16843009, none⟩

/-- Sample peer 2. -/
def peerB : NetworkPeer := ⟨IPv4Value.addr 33686018, none⟩

/-- Sample filter F1. -/
def fltF1 : PacketFilter := mkPacketFilter [svcTcp80]

/-- Sample filter F2. -/
def fltF2 : PacketFilter := mkPacketFilter [svcUdp514]

/-- Sample owner O1. -/
def ownO1 : Owner := ⟨"X-o1"⟩

/-- Sample owner O2. -/
def ownO2 : Owner := ⟨"X-o2"⟩

/-- Sample rule A (filter F1, owner O1). -/
def ruleA : CRule := ⟨[peerA], [peerA], fltF1, [ownO1]⟩

/-- Sample rule B (filter F2, owner O2). -/
def ruleB : CRule := ⟨[peerB], [peerB], fltF2, [ownO2]⟩

/-! ## Theorems -/

/-- Claim C1: a discrepancy finder built from desired `D` and existing
`E` returns from `get_elements_to_delete` exactly the identifiers of
`E − D` and from `get_elements_to_add` exactly `D − E` as full values;
`D = E` gives two empty results, empty `D` schedules every existing
identifier for deletion and nothing for addition, empty `E` schedules
all of `D` for addition and nothing for deletion. -/
theorem discrepancy_finder_diff_correct {α : Type} [DecidableEq α] [IdentifiedModelInterface α]
    (D E : Finset α) :
    (∀ s, s ∈ (BaseDiscrepancyFinder.mk D E).get_elements_to_delete ↔
      ∃ e, e ∈ E ∧ e ∉ D ∧ IdentifiedModelInterface.identifier e = s) ∧
    (∀ x, x ∈ (BaseDiscrepancyFinder.mk D E).get_elements_to_add ↔ x ∈ D ∧ x ∉ E) ∧
    (D = E → (BaseDiscrepancyFinder.mk D E).get_elements_to_delete = ∅ ∧
      (BaseDiscrepancyFinder.mk D E).get_elements_to_add = ∅) ∧
    (D = ∅ → (BaseDiscrepancyFinder.mk D E).get_elements_to_delete =
        E.image IdentifiedModelInterface.identifier ∧
      (BaseDiscrepancyFinder.mk D E).get_elements_to_add = ∅) ∧
    (E = ∅ → (BaseDiscrepancyFinder.mk D E).get_elements_to_add = D ∧
      (BaseDiscrepancyFinder.mk D E).get_elements_to_delete = ∅) := by
  refine ⟨?_, ?_, ?_, ?_, ?_⟩
  · intro s
    simp only [BaseDiscrepancyFinder.get_elements_to_delete, Finset.mem_image, Finset.mem_sdiff]
    tauto
  · intro x
    simp [BaseDiscrepancyFinder.get_elements_to_add, Finset.mem_sdiff]
  · intro h
    subst h
    simp [BaseDiscrepancyFinder.get_elements_to_delete, BaseDiscrepancyFinder.get_elements_to_add]
  · intro h
    subst h
    simp [BaseDiscrepancyFinder.get_elements_to_delete, BaseDiscrepancyFinder.get_elements_to_add]
  · intro h
    subst h
    simp [BaseDiscrepancyFinder.get_elements_to_delete, BaseDiscrepancyFinder.get_elements_to_add]

/-- Witness for C1: at `D = E = ∅` (one concrete input satisfying every
hypothesis at once) both results are empty, every existing identifier
(none) is deleted and all of the desired set (nothing) is added. -/
theorem discrepancy_finder_diff_correct_witness :
    (BaseDiscrepancyFinder.mk (∅ : Finset Owner) ∅).get_elements_to_delete = ∅ ∧
    (BaseDiscrepancyFinder.mk (∅ : Finset Owner) ∅).get_elements_to_add = ∅ :=
  (discrepancy_finder_diff_correct ∅ ∅).2.2.1 rfl

/-- Claim C9: `optimize()` leaves the rule set unchanged; the desired
filters are exactly the rules' packet filters and the desired owners
exactly the union of the rules' owner sets; and `Developer.run` hands
the target phase exactly the projected triple, reading nothing else. -/
theorem optimizer_projection_correct (rules : Finset CRule) :
    (Optimizer.optimize (Optimizer.mk rules)).get_rules = rules ∧
    (∀ f, f ∈ (Optimizer.optimize (Optimizer.mk rules)).get_filters ↔
      ∃ r, r ∈ rules ∧ r.packet_filter = f) ∧
    (∀ o, o ∈ (Optimizer.optimize (Optimizer.mk rules)).get_owners ↔
      ∃ r, r ∈ rules ∧ o ∈ r.owners) ∧
    (∀ (ε : Type) (spol tpol : RetryPolicy) (sdur tdur : Nat → Nat)
        (tatt : Finset CRule → Finset PacketFilter → Finset Owner → Nat → AttemptOutcome Unit ε),
      Developer.run spol tpol (fun _ => AttemptOutcome.ok rules) sdur tatt tdur =
        (apply_source_to_target_with_retries tpol
          (tatt rules (rules.image CRule.packet_filter) (rules.biUnion fun r => r.owners.toFinset)) tdur).1) := by
  refine ⟨rfl, ?_, ?_, ?_⟩
  · intro f
    simp [Optimizer.optimize, Optimizer.get_filters, Optimizer.mk]
  · intro o
    simp [Optimizer.optimize, Optimizer.get_owners, Optimizer.mk]
  · intro ε spol tpol sdur tdur tatt
    simp [Developer.run, read_source_rules_with_retries, retryPhase, retryGo,
      Optimizer.optimize, Optimizer.get_rules, Optimizer.get_filters, Optimizer.get_owners]

/-- Claim C10: `delete_rule` removes exactly the one stored rule whose
identifier matches when a unique such rule exists (all other rules are
unchanged), and is a silent no-op when no stored rule matches. -/
theorem delete_rule_frame (rules : List CRule) (rid : String) (r : CRule)
    (hnd : rules.Nodup) (hr : r ∈ rules) (hid : r.identifier = rid)
    (huniq : ∀ x, x ∈ rules → x.identifier = rid → x = r) :
    JSONFileReaderWriter.delete_rule rules rid = rules.erase r ∧
    r ∉ JSONFileReaderWriter.delete_rule rules rid ∧
    (∀ x, x ∈ JSONFileReaderWriter.delete_rule rules rid ↔ x ∈ rules ∧ x ≠ r) ∧
    (JSONFileReaderWriter.delete_rule rules rid).length + 1 = rules.length ∧
    (∀ (l : List CRule) (s : String), (∀ x, x ∈ l → x.identifier ≠ s) →
      JSONFileReaderWriter.delete_rule l s = l) := by
  have hfind : ∃ y, rules.find? (fun rule => rule.identifier == rid) = some y := by
    have : (rules.find? (fun rule => rule.identifier == rid)).isSome := by
      rw [List.find?_isSome]
      exact ⟨r, hr, by simp [hid]⟩
    exact Option.isSome_iff_exists.mp this
  obtain ⟨y, hy⟩ := hfind
  have hyr : y = r := by
    have hmem : y ∈ rules := List.mem_of_find?_eq_some hy
    have hpy : y.identifier = rid := by
      have := List.find?_some hy
      simpa using this
    exact huniq y hmem hpy
  have heq : JSONFileReaderWriter.delete_rule rules rid = rules.erase r := by
    unfold JSONFileReaderWriter.delete_rule
    rw [hy, hyr]
  refine ⟨heq, ?_, ?_, ?_, ?_⟩
  · rw [heq]
    exact fun hcon => ((List.Nodup.mem_erase_iff hnd).mp hcon).1 rfl
  · intro x
    rw [heq, List.Nodup.mem_erase_iff hnd]
    exact And.comm
  · rw [heq, List.length_erase_of_mem hr]
    have h1 : 0 < rules.length := List.length_pos.mpr (List.ne_nil_of_mem hr)
    omega
  · intro l s hnone
    have hfn : l.find? (fun rule => rule.identifier == s) = none := by
      rw [List.find?_eq_none]
      intro x hx
      simpa using hnone x hx
    unfold JSONFileReaderWriter.delete_rule
    rw [hfn]

/-- Claim C5: identifier generation is a pure total function returning
the fixed literal prefix concatenated with the hex-encoded SHA-1 of the
UTF-8 bytes of the input; equal inputs give equal identifiers, every
output is the 2-character prefix plus 40 hex characters, and the
function reproduces the concrete digests recorded in `test_namer.py`. -/
theorem namer_identifier_spec :
    (∀ s, Namer.generate_identifier s = IDENTIFIER_PREFIX_STRING ++ sha1Hex (utf8Encode s)) ∧
    (∀ s t, s = t → Namer.generate_identifier s = Namer.generate_identifier t) ∧
    (∀ s, (Namer.generate_identifier s).length = 42) ∧
    Namer.generate_identifier "" = "X-da39a3ee5e6b4b0d3255bfef95601890afd80709" ∧
    Namer.generate_identifier "[]" = "X-97d170e1550eee4afc0af065b78cda302a97674c" ∧
    Namer.generate_identifier "\x7b\x7d" = "X-bf21a9e8fbc5a3846fb05b4fa0859e0917b2202f" ∧
    Namer.generate_identifier "\x7b\"x\": 4\x7d" = "X-0e9495c7713dd296e29911123274e2a4e6ab6470" ∧
    Namer.generate_identifier "[\n  \x7b\n    \"g\": \"h\"\n  \x7d\n]" = "X-b5634d5772f590b6d8dc6e79daf6210dc397ca46" := by
  have hlen : ∀ msg : List Nat, (sha1Hex msg).length = 40 := by
    intro msg
    unfold sha1Hex
    obtain ⟨h0, h1, h2, h3, h4⟩ := sha1Digest msg
    simp [wordHex, bigEndian4, hexByte, String.length]
  refine ⟨fun s => rfl, fun s t h => by rw [h], ?_, by decide, by decide, by decide, by decide, by decide⟩
  intro s
  show (IDENTIFIER_PREFIX_STRING ++ sha1Hex (utf8Encode s)).length = 42
  rw [String.length_append, hlen]
  rfl

/-- Witness for C5: the determinism conjunct applied at a concrete
input. -/
theorem namer_identifier_spec_witness :
    Namer.generate_identifier "abc" = Namer.generate_identifier "abc" :=
  namer_identifier_spec.2.1 "abc" "abc" rfl


/-- Closed-form outcome of `mkRuleFilter`, by exhaustive case analysis
on the inputs (a proof device, not a source definition). -/
def ruleFilterOutcome (proto : Protocol) (pl ph : Option Nat) : Except String RuleFilter :=
  match pl with
  | none =>
    if proto = .icmp then
      match ph with
      | none => .ok ⟨proto, none, none⟩
      | some q =>
        if q ≤ 65535 then .ok ⟨proto, none, none⟩
        else .error "Input should be less than or equal to 65535"
    else .error "TCP/UDP requires a port number"
  | some p =>
    if p ≤ 65535 then
      if proto = .icmp then
        match ph with
        | none => .ok ⟨proto, none, none⟩
        | some q =>
          if q ≤ 65535 then .ok ⟨proto, none, none⟩
          else .error "Input should be less than or equal to 65535"
      else
        match ph with
        | none => .ok ⟨proto, some p, none⟩
        | some q =>
          if q ≤ 65535 then
            if q = p then .ok ⟨proto, some p, none⟩
            else if q < p then .error "port_high cannot be lower than port_low"
            else if p = 0 then .error "Port 0 cannot be used in ranges"
            else .ok ⟨proto, some p, some q⟩
          else .error "Input should be less than or equal to 65535"
    else .error "Input should be less than or equal to 65535"

/-- `mkRuleFilter` agrees with its closed form. -/
lemma mkRuleFilter_eq_outcome (proto : Protocol) (pl ph : Option Nat) :
    mkRuleFilter proto pl ph = ruleFilterOutcome proto pl ph := by
  cases proto <;> rcases pl with _ | p <;> rcases ph with _ | q <;>
    simp only [mkRuleFilter, ruleFilterOutcome, validatePortBound, tcpudp_has_port_low,
      port_high_ge_low] <;>
    split_ifs <;> simp_all <;> rw [if_neg (by omega)]

/-- Counterexample for C7: the claim asserts construction fails whenever
the supplied high port is lower than the supplied low port, but for
protocol `icmp` the validators first drop `port_low`, so `port_high` is
dropped too and construction succeeds with high 3 below low 5. -/
theorem rulefilter_icmp_inverted_range_succeeds :
    3 < 5 ∧ mkRuleFilter Protocol.icmp (some 5) (some 3) =
      Except.ok ⟨Protocol.icmp, none, none⟩ :=
  ⟨by decide, rfl⟩

/-- Claim C7 (amended: the two failure conditions on port relations
apply when the protocol is `tcp` or `udp`; for `icmp` both ports are
discarded before those checks run): every successfully constructed value
has no ports for `icmp`; `tcp`/`udp` require and retain a low port; a
supplied high port equal to the supplied low port is normalized to
absent; and for `tcp`/`udp`, construction fails whenever the high port
is lower than the low port and whenever a proper range starts at
port 0. -/
theorem rulefilter_validation_spec :
    (∀ pl ph rf, mkRuleFilter Protocol.icmp pl ph = .ok rf →
      rf.port_low = none ∧ rf.port_high = none) ∧
    (∀ proto pl ph rf, (proto = Protocol.tcp ∨ proto = Protocol.udp) →
      mkRuleFilter proto pl ph = .ok rf → ∃ p, rf.port_low = some p) ∧
    (∀ proto ph, (proto = Protocol.tcp ∨ proto = Protocol.udp) →
      isOkE (mkRuleFilter proto none ph) = false) ∧
    (∀ proto p rf, mkRuleFilter proto (some p) (some p) = .ok rf → rf.port_high = none) ∧
    (∀ proto v w, (proto = Protocol.tcp ∨ proto = Protocol.udp) → w < v →
      isOkE (mkRuleFilter proto (some v) (some w)) = false) ∧
    (∀ proto w, (proto = Protocol.tcp ∨ proto = Protocol.udp) → w ≠ 0 →
      isOkE (mkRuleFilter proto (some 0) (some w)) = false) := by
  refine ⟨?_, ?_, ?_, ?_, ?_, ?_⟩
  · intro pl ph rf h
    rw [mkRuleFilter_eq_outcome] at h
    rcases pl with _ | p <;> rcases ph with _ | q <;>
      simp only [ruleFilterOutcome] at h <;> split_ifs at h <;> cases h <;> simp
  · intro proto pl ph rf hp h
    rw [mkRuleFilter_eq_outcome] at h
    rcases hp with hp | hp <;> subst hp <;> rcases pl with _ | p <;> rcases ph with _ | q <;>
      simp only [ruleFilterOutcome] at h <;> split_ifs at h <;> cases h <;> simp_all
  · intro proto ph hp
    rw [mkRuleFilter_eq_outcome]
    rcases hp with hp | hp <;> subst hp <;> simp [ruleFilterOutcome, isOkE]
  · intro proto p rf h
    rw [mkRuleFilter_eq_outcome] at h
    cases proto <;> simp only [ruleFilterOutcome] at h <;> split_ifs at h <;> cases h <;> simp_all
  · intro proto v w hp hlt
    rw [mkRuleFilter_eq_outcome]
    rcases hp with hp | hp <;> subst hp <;>
      simp only [ruleFilterOutcome] <;> split_ifs <;> simp_all [isOkE]
  · intro proto w hp hw
    rw [mkRuleFilter_eq_outcome]
    rcases hp with hp | hp <;> subst hp <;>
      simp only [ruleFilterOutcome] <;> split_ifs <;> simp_all [isOkE]

/-- Witness for C7 (amended): concrete instances — an `icmp` service
built with a port ends with no ports; `tcp` without a low port is
rejected; equal supplied ports collapse to a single port; an inverted
`tcp` range and a proper range from port 0 are rejected. -/
theorem rulefilter_validation_spec_witness :
    ((⟨Protocol.icmp, none, none⟩ : RuleFilter).port_low = none ∧
      (⟨Protocol.icmp, none, none⟩ : RuleFilter).port_high = none) ∧
    isOkE (mkRuleFilter Protocol.tcp none none) = false ∧
    (⟨Protocol.udp, some 80, none⟩ : RuleFilter).port_high = none ∧
    isOkE (mkRuleFilter Protocol.tcp (some 5) (some 3)) = false ∧
    isOkE (mkRuleFilter Protocol.udp (some 0) (some 7)) = false :=
  ⟨rulefilter_validation_spec.1 (some 9) (some 9) ⟨Protocol.icmp, none, none⟩ rfl,
   rulefilter_validation_spec.2.2.1 Protocol.tcp none (Or.inl rfl),
   rulefilter_validation_spec.2.2.2.1 Protocol.udp 80 ⟨Protocol.udp, some 80, none⟩ rfl,
   rulefilter_validation_spec.2.2.2.2.1 Protocol.tcp 5 3 (Or.inl rfl) (by decide),
   rulefilter_validation_spec.2.2.2.2.2 Protocol.udp 7 (Or.inr rfl) (by decide)⟩

/-- Claim C8: a peer built without a high bound, or with a high bound
equal to the low address, is a single address (high normalized to
absent); construction fails whenever the low value is a network and a
high bound is supplied, and whenever the high address is lower than the
low address; any retained high bound strictly exceeds the low
address. -/
theorem rulepeer_validation_spec :
    (∀ lo, mkRulePeer lo none = .ok ⟨lo, none⟩) ∧
    (∀ a, mkRulePeer (IPv4Value.addr a) (some a) = .ok ⟨IPv4Value.addr a, none⟩) ∧
    (∀ a pfx v, isOkE (mkRulePeer (IPv4Value.net a pfx) (some v)) = false) ∧
    (∀ a v, v < a → isOkE (mkRulePeer (IPv4Value.addr a) (some v)) = false) ∧
    (∀ lo hi p, mkRulePeer lo hi = .ok p → p.ip_low = lo ∧
      (∀ h, p.ip_high = some h → ∃ a, lo = IPv4Value.addr a ∧ a < h)) := by
  refine ⟨fun lo => rfl, ?_, fun a pfx v => rfl, ?_, ?_⟩
  · intro a
    simp [mkRulePeer, ip_high_ge_low]
  · intro a v hlt
    simp [mkRulePeer, ip_high_ge_low, hlt, isOkE]
  · intro lo hi p hok
    rcases hi with _ | v
    · simp only [mkRulePeer, ip_high_ge_low] at hok
      cases hok
      simp
    · rcases lo with a | ⟨a, pfx⟩
      · simp only [mkRulePeer, ip_high_ge_low] at hok
        split_ifs at hok with h1 h2 <;> cases hok <;> refine ⟨rfl, ?_⟩ <;> intro h hh <;> simp at hh
        subst hh
        exact ⟨a, rfl, by omega⟩
      · simp only [mkRulePeer, ip_high_ge_low] at hok
        cases hok

/-- Witness for C8: concrete instances — equal bounds collapse, a
network low with a high bound is rejected, an inverted range is
rejected, and a successful range retains a strictly larger high. -/
theorem rulepeer_validation_spec_witness :
    mkRulePeer (IPv4Value.addr 7) (some 7) = .ok ⟨IPv4Value.addr 7, none⟩ ∧
    isOkE (mkRulePeer (IPv4Value.net 8 24) (some 9)) = false ∧
    isOkE (mkRulePeer (IPv4Value.addr 5) (some 4)) = false ∧
    (⟨IPv4Value.addr 5, some 9⟩ : RulePeer).ip_low = IPv4Value.addr 5 :=
  ⟨rulepeer_validation_spec.2.1 7,
   rulepeer_validation_spec.2.2.1 8 24 9,
   rulepeer_validation_spec.2.2.2.1 5 4 (by decide),
   (rulepeer_validation_spec.2.2.2.2 (IPv4Value.addr 5) (some 9) ⟨IPv4Value.addr 5, some 9⟩ rfl).1⟩

/-- Phase of an addition call is at least 3. -/
lemma isAdd_phase_ge {a : TargetOp} (h : a.isAdd = true) : 3 ≤ a.phase := by
  cases a <;> simp [TargetOp.isAdd, TargetOp.phase] at h ⊢

/-- Phase of a deletion call is at most 2. -/
lemma isDelete_phase_le {a : TargetOp} (h : a.isDelete = true) : a.phase ≤ 2 := by
  cases a <;> simp [TargetOp.isDelete, TargetOp.phase] at h ⊢

/-- Appending phase-bounded blocks preserves phase monotonicity. -/
lemma pairwise_phase_append {l₁ l₂ : List TargetOp} (c : Nat)
    (h₁ : ∀ x ∈ l₁, x.phase ≤ c) (h₂ : ∀ x ∈ l₂, c ≤ x.phase)
    (p₁ : l₁.Pairwise (fun a b => a.phase ≤ b.phase))
    (p₂ : l₂.Pairwise (fun a b => a.phase ≤ b.phase)) :
    (l₁ ++ l₂).Pairwise (fun a b => a.phase ≤ b.phase) :=
  List.pairwise_append.mpr ⟨p₁, p₂, fun a ha b hb => (h₁ a ha).trans (h₂ b hb)⟩

/-- A block of constant phase is phase-monotone. -/
lemma pairwise_phase_const {l : List TargetOp} (c : Nat) (h : ∀ x ∈ l, x.phase = c) :
    l.Pairwise (fun a b => a.phase ≤ b.phase) :=
  List.pairwise_of_forall_mem_list fun a ha b hb => (h a ha).le.trans (h b hb).ge

/-- Claim C2: in one apply run over the three discrepancy finders'
results, the mutation calls occur in the fixed order — all rule
deletions, then filter deletions, then owner deletions, then owner
additions, then filter additions, then rule additions — followed by
exactly one `apply_changes`, which is the final call; in particular
every deletion precedes every addition. -/
theorem apply_protocol_ordered (dR eR : Finset CRule) (dF eF : Finset PacketFilter)
    (dO eO : Finset Owner)
    (delRules : List String) (addRules : List CRule)
    (delFilters : List String) (addFilters : List PacketFilter)
    (delOwners : List String) (addOwners : List Owner)
    (h1 : delRules.toFinset = (BaseDiscrepancyFinder.mk dR eR).get_elements_to_delete)
    (h2 : addRules.toFinset = (BaseDiscrepancyFinder.mk dR eR).get_elements_to_add)
    (h3 : delFilters.toFinset = (BaseDiscrepancyFinder.mk dF eF).get_elements_to_delete)
    (h4 : addFilters.toFinset = (BaseDiscrepancyFinder.mk dF eF).get_elements_to_add)
    (h5 : delOwners.toFinset = (BaseDiscrepancyFinder.mk dO eO).get_elements_to_delete)
    (h6 : addOwners.toFinset = (BaseDiscrepancyFinder.mk dO eO).get_elements_to_add) :
    (applySourceToTargetTrace delRules addRules delFilters addFilters delOwners addOwners).Pairwise
      (fun a b => a.phase ≤ b.phase) ∧
    (applySourceToTargetTrace delRules addRules delFilters addFilters delOwners addOwners).countP
      (fun op => op == TargetOp.apply_changes) = 1 ∧
    (applySourceToTargetTrace delRules addRules delFilters addFilters delOwners addOwners).getLast? =
      some TargetOp.apply_changes ∧
    (applySourceToTargetTrace delRules addRules delFilters addFilters delOwners addOwners).Pairwise
      (fun a b => a.isAdd = true → b.isDelete = false) := by
  have hB0 : ∀ x ∈ delRules.map TargetOp.delete_rule, TargetOp.phase x = 0 := by
    intro x hx; obtain ⟨i, _, rfl⟩ := List.mem_map.mp hx; rfl
  have hB1 : ∀ x ∈ delFilters.map TargetOp.delete_filter, TargetOp.phase x = 1 := by
    intro x hx; obtain ⟨i, _, rfl⟩ := List.mem_map.mp hx; rfl
  have hB2 : ∀ x ∈ delOwners.map TargetOp.delete_owner, TargetOp.phase x = 2 := by
    intro x hx; obtain ⟨i, _, rfl⟩ := List.mem_map.mp hx; rfl
  have hB3 : ∀ x ∈ addOwners.map TargetOp.add_owner, TargetOp.phase x = 3 := by
    intro x hx; obtain ⟨i, _, rfl⟩ := List.mem_map.mp hx; rfl
  have hB4 : ∀ x ∈ addFilters.map TargetOp.add_filter, TargetOp.phase x = 4 := by
    intro x hx; obtain ⟨i, _, rfl⟩ := List.mem_map.mp hx; rfl
  have hB5 : ∀ x ∈ addRules.map TargetOp.add_rule, TargetOp.phase x = 5 := by
    intro x hx; obtain ⟨i, _, rfl⟩ := List.mem_map.mp hx; rfl
  have t6 : ([TargetOp.apply_changes] : List TargetOp).Pairwise (fun a b => a.phase ≤ b.phase) := by
    simp
  have t5 := pairwise_phase_append 5 (fun x hx => (hB5 x hx).le)
    (by intro x hx; simp only [List.mem_singleton] at hx; subst hx; exact by norm_num [TargetOp.phase])
    (pairwise_phase_const 5 hB5) t6
  have m5 : ∀ x ∈ addRules.map TargetOp.add_rule ++ [TargetOp.apply_changes], 5 ≤ TargetOp.phase x := by
    intro x hx
    rcases List.mem_append.mp hx with hx | hx
    · exact (hB5 x hx).ge
    · simp only [List.mem_singleton] at hx; subst hx; norm_num [TargetOp.phase]
  have t4 := pairwise_phase_append 4 (fun x hx => (hB4 x hx).le)
    (fun x hx => le_trans (by norm_num) (m5 x hx)) (pairwise_phase_const 4 hB4) t5
  have m4 : ∀ x ∈ addFilters.map TargetOp.add_filter ++
      (addRules.map TargetOp.add_rule ++ [TargetOp.apply_changes]), 4 ≤ TargetOp.phase x := by
    intro x hx
    rcases List.mem_append.mp hx with hx | hx
    · exact (hB4 x hx).ge
    · exact le_trans (by norm_num) (m5 x hx)
  have t3 := pairwise_phase_append 3 (fun x hx => (hB3 x hx).le)
    (fun x hx => le_trans (by norm_num) (m4 x hx)) (pairwise_phase_const 3 hB3) t4
  have m3 : ∀ x ∈ addOwners.map TargetOp.add_owner ++ (addFilters.map TargetOp.add_filter ++
      (addRules.map TargetOp.add_rule ++ [TargetOp.apply_changes])), 3 ≤ TargetOp.phase x := by
    intro x hx
    rcases List.mem_append.mp hx with hx | hx
    · exact (hB3 x hx).ge
    · exact le_trans (by norm_num) (m4 x hx)
  have t2 := pairwise_phase_append 2 (fun x hx => (hB2 x hx).le)
    (fun x hx => le_trans (by norm_num) (m3 x hx)) (pairwise_phase_const 2 hB2) t3
  have m2 : ∀ x ∈ delOwners.map TargetOp.delete_owner ++ (addOwners.map TargetOp.add_owner ++
      (addFilters.map TargetOp.add_filter ++ (addRules.map TargetOp.add_rule ++
        [TargetOp.apply_changes]))), 2 ≤ TargetOp.phase x := by
    intro x hx
    rcases List.mem_append.mp hx with hx | hx
    · exact (hB2 x hx).ge
    · exact le_trans (by norm_num) (m3 x hx)
  have t1 := pairwise_phase_append 1 (fun x hx => (hB1 x hx).le)
    (fun x hx => le_trans (by norm_num) (m2 x hx)) (pairwise_phase_const 1 hB1) t2
  have m1 : ∀ x ∈ delFilters.map TargetOp.delete_filter ++ (delOwners.map TargetOp.delete_owner ++
      (addOwners.map TargetOp.add_owner ++ (addFilters.map TargetOp.add_filter ++
        (addRules.map TargetOp.add_rule ++ [TargetOp.apply_changes])))), 1 ≤ TargetOp.phase x := by
    intro x hx
    rcases List.mem_append.mp hx with hx | hx
    · exact (hB1 x hx).ge
    · exact le_trans (by norm_num) (m2 x hx)
  have t0 := pairwise_phase_append 0 (fun x hx => (hB0 x hx).le)
    (fun x hx => Nat.zero_le _) (pairwise_phase_const 0 hB0) t1
  have htr : applySourceToTargetTrace delRules addRules delFilters addFilters delOwners addOwners =
      delRules.map TargetOp.delete_rule ++ (delFilters.map TargetOp.delete_filter ++
        (delOwners.map TargetOp.delete_owner ++ (addOwners.map TargetOp.add_owner ++
          (addFilters.map TargetOp.add_filter ++ (addRules.map TargetOp.add_rule ++
            [TargetOp.apply_changes]))))) := by
    simp [applySourceToTargetTrace, processElements]
  refine ⟨by rw [htr]; exact t0, ?_, ?_, ?_⟩
  · rw [htr]
    have hz : ∀ (l : List TargetOp), (∀ x ∈ l, x.phase ≠ 6) →
        l.countP (fun op => op == TargetOp.apply_changes) = 0 := by
      intro l hl
      rw [List.countP_eq_zero]
      intro a ha hcon
      have : a = TargetOp.apply_changes := by simpa using hcon
      exact hl a ha (by rw [this]; rfl)
    simp only [List.countP_append]
    rw [hz _ (fun x hx => by rw [hB0 x hx]; norm_num),
      hz _ (fun x hx => by rw [hB1 x hx]; norm_num),
      hz _ (fun x hx => by rw [hB2 x hx]; norm_num),
      hz _ (fun x hx => by rw [hB3 x hx]; norm_num),
      hz _ (fun x hx => by rw [hB4 x hx]; norm_num),
      hz _ (fun x hx => by rw [hB5 x hx]; norm_num)]
    rfl
  · rw [htr]
    simp [List.getLast?_append]
  · rw [htr]
    refine List.Pairwise.imp ?_ t0
    intro a b hab hA
    rcases hbd : b.isDelete with hF | hT
    · rfl
    · exact absurd ((isAdd_phase_ge hA).trans hab) (by simpa using (isDelete_phase_le hbd).trans_lt (by norm_num))

/-- Witness for C2: the spec scenario — desired {RuleA (F1, O1)},
existing {RuleB (F2, O2)} — yields a trace with exactly one final
commit, via the ordering theorem applied to the concrete finder
results. -/
theorem apply_protocol_ordered_witness :
    (applySourceToTargetTrace [ruleB.identifier] [ruleA] [fltF2.identifier] [fltF1]
      [ownO2.identifier] [ownO1]).countP (fun op => op == TargetOp.apply_changes) = 1 ∧
    (applySourceToTargetTrace [ruleB.identifier] [ruleA] [fltF2.identifier] [fltF1]
      [ownO2.identifier] [ownO1]).getLast? = some TargetOp.apply_changes := by
  have h := apply_protocol_ordered {ruleA} {ruleB} {fltF1} {fltF2} {ownO1} {ownO2}
    [ruleB.identifier] [ruleA] [fltF2.identifier] [fltF1] [ownO2.identifier] [ownO1]
    (by decide) (by decide) (by decide) (by decide) (by decide) (by decide)
  exact ⟨h.2.1, h.2.2.1⟩

/-- Witness for C10: deleting by the identifier of the only stored rule
removes exactly that rule. -/
theorem delete_rule_frame_witness :
    JSONFileReaderWriter.delete_rule [ruleA] ruleA.identifier = ([ruleA] : List CRule).erase ruleA ∧
    (JSONFileReaderWriter.delete_rule [ruleA] ruleA.identifier).length + 1 =
      ([ruleA] : List CRule).length := by
  have h := delete_rule_frame [ruleA] ruleA.identifier ruleA (by simp) (by simp) rfl
    (fun x hx _ => by simpa using hx)
  exact ⟨h.1, h.2.2.2.1⟩

/-- Claim C6: a PacketFilter's identifier is invariant under permutation
of the supplied services; a Rule's identifier is a deterministic
function of (sources order, destinations order, filter identifier,
owner set) — in particular reordering the owner list does not change it,
while swapping two sources does (shown on a concrete rule). -/
theorem entity_identity_stability :
    (∀ l1 l2 : List NetworkService, l1.Perm l2 →
      (mkPacketFilter l1).identifier = (mkPacketFilter l2).identifier) ∧
    (∀ r r' : CRule, r.sources = r'.sources → r.destinations = r'.destinations →
      r.packet_filter.identifier = r'.packet_filter.identifier →
      r.owners.toFinset = r'.owners.toFinset → r.identifier = r'.identifier) ∧
    (∀ (s d : List NetworkPeer) (f : PacketFilter) (o1 o2 : List Owner), o1.Perm o2 →
      (CRule.mk s d f o1).identifier = (CRule.mk s d f o2).identifier) ∧
    (CRule.mk [peerA, peerB] [peerA] fltF1 [ownO1]).identifier ≠
      (CRule.mk [peerB, peerA] [peerA] fltF1 [ownO1]).identifier := by
  have hser : ∀ r r' : CRule, r.sources = r'.sources → r.destinations = r'.destinations →
      r.packet_filter.identifier = r'.packet_filter.identifier →
      r.owners.toFinset = r'.owners.toFinset → r.serialize = r'.serialize := by
    intro r r' hs hd hf ho
    unfold CRule.serialize
    rw [hs, hd, hf, canonicalOwnerIds_sameSet ho]
  refine ⟨?_, ?_, ?_, by decide⟩
  · intro l1 l2 h
    unfold mkPacketFilter PacketFilter.identifier PacketFilter.serialize
    rw [canonicalServices_perm h]
  · intro r r' hs hd hf ho
    unfold CRule.identifier
    rw [hser r r' hs hd hf ho]
  · intro s d f o1 o2 h
    unfold CRule.identifier
    rw [hser (CRule.mk s d f o1) (CRule.mk s d f o2) rfl rfl rfl (List.toFinset_eq_of_perm _ _ h)]

/-- Witness for C6: the repository test's concrete instance — an
icmp+tcp filter hashed in both supply orders gets equal identifiers —
and a concrete rule whose owner list is reversed keeps its
identifier. -/
theorem entity_identity_stability_witness :
    (mkPacketFilter [svcIcmp, svcTcp80]).identifier =
      (mkPacketFilter [svcTcp80, svcIcmp]).identifier ∧
    (CRule.mk [peerA] [peerA] fltF1 [ownO1, ownO2]).identifier =
      (CRule.mk [peerA] [peerA] fltF1 [ownO2, ownO1]).identifier :=
  ⟨entity_identity_stability.1 [svcIcmp, svcTcp80] [svcTcp80, svcIcmp] (by decide),
   entity_identity_stability.2.2.1 [peerA] [peerA] fltF1 [ownO1, ownO2] [ownO2, ownO1] (by decide)⟩

/-- Shifting a duration sum by one attempt. -/
lemma sum_shift (dur : Nat → Nat) (n k : Nat) :
    Finset.sum (Finset.range (k + 1)) (fun t => dur (n + t)) =
      dur n + Finset.sum (Finset.range k) (fun t => dur (n + 1 + t)) := by
  rw [Finset.sum_range_succ']
  have he : Finset.sum (Finset.range k) (fun t => dur (n + (t + 1))) =
      Finset.sum (Finset.range k) (fun t => dur (n + 1 + t)) :=
    Finset.sum_congr rfl (fun x _ => by rw [show n + (x + 1) = n + 1 + x from by omega])
  have h0 : dur (n + 0) = dur n := by rw [Nat.add_zero]
  rw [he, h0]
  omega

/-- If every attempt fails with a recoverable error, the retry loop
fails non-fatally at the first attempt where a stop condition holds,
with a trace that recreates the collaborator before every attempt. -/
lemma retryGo_all_recoverable {α ε : Type} (pol : RetryPolicy) (att : Nat → AttemptOutcome α ε)
    (dur : Nat → Nat) (es : Nat → ε) (hatt : ∀ m, att m = AttemptOutcome.recoverable (es m)) :
    ∀ r n elapsed, ∃ j,
      retryGo pol att dur r n elapsed =
        (RetryResult.failed false (es (n + j)), mkRetryTrace n j) ∧
      j ≤ r - 1 ∧
      (j + 1 = r ∨ r ≤ 1 ∨ pol.retry_timeout ≤
        elapsed + Finset.sum (Finset.range (j + 1)) (fun t => dur (n + t)) + j * pol.retry_delay) ∧
      (∀ i, i < j → elapsed + Finset.sum (Finset.range (i + 1)) (fun t => dur (n + t)) +
        i * pol.retry_delay < pol.retry_timeout) := by
  intro r
  induction r using Nat.strong_induction_on with
  | _ r ih =>
    intro n elapsed
    rcases r with _ | r0
    · refine ⟨0, ?_, by omega, Or.inr (Or.inl (by omega)), fun i hi => absurd hi (by omega)⟩
      rw [retryGo.eq_3 pol att dur n elapsed (es n) (hatt n)]
      simp [mkRetryTrace]
    · rcases r0 with _ | r1
      · refine ⟨0, ?_, by omega, Or.inl rfl, fun i hi => absurd hi (by omega)⟩
        rw [retryGo.eq_4 pol att dur n elapsed (es n) (hatt n)]
        simp [mkRetryTrace]
      · by_cases htime : pol.retry_timeout ≤ elapsed + dur n
        · refine ⟨0, ?_, by omega, Or.inr (Or.inr ?_), fun i hi => absurd hi (by omega)⟩
          · rw [retryGo.eq_5 pol att dur n elapsed (es n) r1 (hatt n), if_pos htime]
            simp [mkRetryTrace]
          · simpa [Finset.sum_range_one] using htime
        · obtain ⟨j, e1, e2, e3, e4⟩ := ih (r1 + 1) (by omega) (n + 1)
            (elapsed + dur n + pol.retry_delay)
          refine ⟨j + 1, ?_, by omega, ?_, ?_⟩
          · rw [retryGo.eq_5 pol att dur n elapsed (es n) r1 (hatt n), if_neg htime]
            have hnj : n + 1 + j = n + (j + 1) := by omega
            simp only [e1, hnj]
            simp [mkRetryTrace]
          · rcases e3 with h3 | h3 | h3
            · exact Or.inl (by omega)
            · exact Or.inl (by omega)
            · refine Or.inr (Or.inr ?_)
              have hEq : elapsed + Finset.sum (Finset.range (j + 1 + 1)) (fun t => dur (n + t)) +
                  (j + 1) * pol.retry_delay =
                  elapsed + dur n + pol.retry_delay +
                    Finset.sum (Finset.range (j + 1)) (fun t => dur (n + 1 + t)) +
                    j * pol.retry_delay := by
                rw [sum_shift dur n (j + 1)]
                ring
              rw [hEq]
              exact h3
          · intro i hi
            rcases i with _ | i0
            · have : ¬pol.retry_timeout ≤ elapsed + dur n := htime
              simp only [Nat.zero_add, Finset.sum_range_one, Nat.add_zero, Nat.zero_mul]
              omega
            · have h4 := e4 i0 (by omega)
              have hEq : elapsed + Finset.sum (Finset.range (i0 + 1 + 1)) (fun t => dur (n + t)) +
                  (i0 + 1) * pol.retry_delay =
                  elapsed + dur n + pol.retry_delay +
                    Finset.sum (Finset.range (i0 + 1)) (fun t => dur (n + 1 + t)) +
                    i0 * pol.retry_delay := by
                rw [sum_shift dur n (i0 + 1)]
                ring
              rw [hEq]
              exact h4

/-- Claim C3: when every attempt of a phase fails with a recoverable
error, `run`'s phase helpers raise the phase-specific terminal error
(`SourceError` for the source-read phase, `TargetError` for the
target-apply phase) wrapping the last underlying cause, at the unique
stopping attempt `k` — `k + 1` equals the configured attempt count
unless the total-time budget elapses first — with a trace that obtains a
fresh collaborator from the factory immediately before every attempt
(`mkRetryTrace`); and the two terminal kinds are the only errors a run
can surface. -/
theorem retry_exhaustion_spec {α ε : Type} (spol tpol : RetryPolicy)
    (satt : Nat → AttemptOutcome α ε) (tatt : Nat → AttemptOutcome Unit ε)
    (sdur tdur : Nat → Nat) (ses tes : Nat → ε) (k kt : Nat)
    (hs : ∀ n, satt n = AttemptOutcome.recoverable (ses n))
    (ht : ∀ n, tatt n = AttemptOutcome.recoverable (tes n))
    (hsc : 1 ≤ spol.retry_count) (htc : 1 ≤ tpol.retry_count)
    (hsstop : k + 1 = spol.retry_count ∨ spol.retry_timeout ≤ checkElapsed spol sdur k)
    (hsno : ∀ i, i < k → i + 1 < spol.retry_count ∧ checkElapsed spol sdur i < spol.retry_timeout)
    (htstop : kt + 1 = tpol.retry_count ∨ tpol.retry_timeout ≤ checkElapsed tpol tdur kt)
    (htno : ∀ i, i < kt → i + 1 < tpol.retry_count ∧ checkElapsed tpol tdur i < tpol.retry_timeout) :
    read_source_rules_with_retries spol satt sdur =
      (Except.error (DevError.sourceError (ses k)), mkRetryTrace 0 k) ∧
    apply_source_to_target_with_retries tpol tatt tdur =
      (Except.error (DevError.targetError (tes kt)), mkRetryTrace 0 kt) ∧
    k + 1 ≤ spol.retry_count ∧ kt + 1 ≤ tpol.retry_count ∧
    (∀ e : DevError ε, (∃ c, e = DevError.sourceError c) ∨ (∃ c, e = DevError.targetError c)) := by
  have main : ∀ (pol : RetryPolicy) (att : Nat → AttemptOutcome α ε) (dur : Nat → Nat)
      (es : Nat → ε) (m : Nat), (∀ n, att n = AttemptOutcome.recoverable (es n)) →
      1 ≤ pol.retry_count →
      (m + 1 = pol.retry_count ∨ pol.retry_timeout ≤ checkElapsed pol dur m) →
      (∀ i, i < m → i + 1 < pol.retry_count ∧ checkElapsed pol dur i < pol.retry_timeout) →
      retryPhase pol att dur =
        (RetryResult.failed false (es m), mkRetryTrace 0 m) ∧ m + 1 ≤ pol.retry_count := by
    intro pol att dur es m hatt hc hstop hno
    obtain ⟨j, e1, e2, e3, e4⟩ :=
      retryGo_all_recoverable pol att dur es hatt pol.retry_count 0 0
    have hce : ∀ i, 0 + Finset.sum (Finset.range (i + 1)) (fun t => dur (0 + t)) +
        i * pol.retry_delay = checkElapsed pol dur i := by
      intro i
      have : Finset.sum (Finset.range (i + 1)) (fun t => dur (0 + t)) =
          Finset.sum (Finset.range (i + 1)) dur :=
        Finset.sum_congr rfl (fun x _ => by rw [Nat.zero_add])
      rw [Nat.zero_add, this, checkElapsed]
    have hjm : j = m := by
      rcases Nat.lt_trichotomy j m with hlt | heq | hgt
      · exfalso
        have h2 := hno j hlt
        rcases e3 with h3 | h3 | h3
        · omega
        · omega
        · rw [hce j] at h3
          omega
      · exact heq
      · exfalso
        have h4 := e4 m hgt
        rw [hce m] at h4
        rcases hstop with h5 | h5
        · omega
        · omega
    subst hjm
    rw [Nat.zero_add] at e1
    exact ⟨e1, by omega⟩
  obtain ⟨se1, se2⟩ := main spol satt sdur ses k hs hsc hsstop hsno
  have tmain : ∀ (pol : RetryPolicy) (att : Nat → AttemptOutcome Unit ε) (dur : Nat → Nat)
      (es : Nat → ε) (m : Nat), (∀ n, att n = AttemptOutcome.recoverable (es n)) →
      1 ≤ pol.retry_count →
      (m + 1 = pol.retry_count ∨ pol.retry_timeout ≤ checkElapsed pol dur m) →
      (∀ i, i < m → i + 1 < pol.retry_count ∧ checkElapsed pol dur i < pol.retry_timeout) →
      retryPhase pol att dur =
        (RetryResult.failed false (es m), mkRetryTrace 0 m) ∧ m + 1 ≤ pol.retry_count := by
    intro pol att dur es m hatt hc hstop hno
    obtain ⟨j, e1, e2, e3, e4⟩ :=
      retryGo_all_recoverable pol att dur es hatt pol.retry_count 0 0
    have hce : ∀ i, 0 + Finset.sum (Finset.range (i + 1)) (fun t => dur (0 + t)) +
        i * pol.retry_delay = checkElapsed pol dur i := by
      intro i
      have : Finset.sum (Finset.range (i + 1)) (fun t => dur (0 + t)) =
          Finset.sum (Finset.range (i + 1)) dur :=
        Finset.sum_congr rfl (fun x _ => by rw [Nat.zero_add])
      rw [Nat.zero_add, this, checkElapsed]
    have hjm : j = m := by
      rcases Nat.lt_trichotomy j m with hlt | heq | hgt
      · exfalso
        have h2 := hno j hlt
        rcases e3 with h3 | h3 | h3
        · omega
        · omega
        · rw [hce j] at h3
          omega
      · exact heq
      · exfalso
        have h4 := e4 m hgt
        rw [hce m] at h4
        rcases hstop with h5 | h5
        · omega
        · omega
    subst hjm
    rw [Nat.zero_add] at e1
    exact ⟨e1, by omega⟩
  obtain ⟨te1, te2⟩ := tmain tpol tatt tdur tes kt ht htc htstop htno
  refine ⟨?_, ?_, se2, te2, ?_⟩
  · rw [read_source_rules_with_retries, se1]
  · rw [apply_source_to_target_with_retries, te1]
  · intro e
    cases e with
    | sourceError c => exact Or.inl ⟨c, rfl⟩
    | targetError c => exact Or.inr ⟨c, rfl⟩

/-- Witness for C3: with 3 configured source attempts (ample time), the
source phase fails as `SourceError` wrapping the third attempt's cause
after exactly 3 attempts; with 5 configured target attempts but a 25s
budget exceeded at the third stop check, the target phase fails as
`TargetError` sooner, after 3 attempts. -/
theorem retry_exhaustion_spec_witness :
    read_source_rules_with_retries ⟨3, 1000, 10⟩
      (fun n => AttemptOutcome.recoverable (α := Unit) n) (fun _ => 1) =
      (Except.error (DevError.sourceError 2), mkRetryTrace 0 2) ∧
    apply_source_to_target_with_retries ⟨5, 25, 10⟩
      (fun n => AttemptOutcome.recoverable (α := Unit) n) (fun _ => 3) =
      (Except.error (DevError.targetError 2), mkRetryTrace 0 2) := by
  have h := retry_exhaustion_spec (α := Unit) ⟨3, 1000, 10⟩ ⟨5, 25, 10⟩
    (fun n => AttemptOutcome.recoverable n) (fun n => AttemptOutcome.recoverable n)
    (fun _ => 1) (fun _ => 3) (fun n => n) (fun n => n) 2 2
    (fun _ => rfl) (fun _ => rfl) (by decide) (by decide)
    (Or.inl rfl) (by decide) (Or.inr (by decide)) (by decide)
  exact ⟨h.1, h.2.1⟩

/-- A fatal error at attempt `t`, after `t` recoverable attempts that
trigger no stop condition, makes the retry loop abort at once with the
fatal cause, regardless of the remaining attempt and time budget. -/
lemma retryGo_fatal {α ε : Type} (pol : RetryPolicy) (att : Nat → AttemptOutcome α ε)
    (dur : Nat → Nat) (es : Nat → ε) (e : ε) :
    ∀ t n r elapsed,
      (∀ i, i < t → att (n + i) = AttemptOutcome.recoverable (es (n + i))) →
      att (n + t) = AttemptOutcome.fatal e →
      (∀ i, i < t → i + 2 ≤ r ∧
        elapsed + Finset.sum (Finset.range (i + 1)) (fun x => dur (n + x)) +
          i * pol.retry_delay < pol.retry_timeout) →
      retryGo pol att dur r n elapsed = (RetryResult.failed true e, mkRetryTrace n t) := by
  intro t
  induction t with
  | zero =>
    intro n r elapsed _ hfat _
    rw [Nat.add_zero] at hfat
    rw [retryGo.eq_2 pol att dur n elapsed r e hfat]
    rfl
  | succ t ih =>
    intro n r elapsed hrec hfat hreach
    have h0 := hreach 0 (by omega)
    have hattn : att n = AttemptOutcome.recoverable (es n) := by
      have := hrec 0 (by omega)
      rwa [Nat.add_zero] at this
    rcases r with _ | r0
    · omega
    rcases r0 with _ | r1
    · omega
    have htime : ¬pol.retry_timeout ≤ elapsed + dur n := by
      have := h0.2
      simp only [Nat.zero_add, Finset.sum_range_one, Nat.add_zero, Nat.zero_mul] at this
      omega
    rw [retryGo.eq_5 pol att dur n elapsed (es n) r1 hattn, if_neg htime]
    have hrec' : ∀ i, i < t → att (n + 1 + i) = AttemptOutcome.recoverable (es (n + 1 + i)) := by
      intro i hi
      have := hrec (i + 1) (by omega)
      rwa [show n + (i + 1) = n + 1 + i from by omega] at this
    have hfat' : att (n + 1 + t) = AttemptOutcome.fatal e := by
      rwa [show n + (t + 1) = n + 1 + t from by omega] at hfat
    have hreach' : ∀ i, i < t → i + 2 ≤ r1 + 1 ∧
        elapsed + dur n + pol.retry_delay +
          Finset.sum (Finset.range (i + 1)) (fun x => dur (n + 1 + x)) +
          i * pol.retry_delay < pol.retry_timeout := by
      intro i hi
      have hr := hreach (i + 1) (by omega)
      refine ⟨by omega, ?_⟩
      have hEq : elapsed + Finset.sum (Finset.range (i + 1 + 1)) (fun x => dur (n + x)) +
          (i + 1) * pol.retry_delay =
          elapsed + dur n + pol.retry_delay +
            Finset.sum (Finset.range (i + 1)) (fun x => dur (n + 1 + x)) +
            i * pol.retry_delay := by
        rw [sum_shift dur n (i + 1)]
        ring
      rw [← hEq]
      exact hr.2
    rw [ih (n + 1) (r1 + 1) (elapsed + dur n + pol.retry_delay) hrec' hfat' hreach']
    simp [mkRetryTrace]

/-- Claim C4: a single fatal collaborator error aborts the phase at once
— after the `t` recoverable attempts that preceded it — even though
attempt count and time budget remain, and it reaches the caller wrapped
as the phase's terminal error (`SourceError`/`TargetError`). -/
theorem fatal_short_circuit_spec {α ε : Type} (spol tpol : RetryPolicy)
    (satt : Nat → AttemptOutcome α ε) (tatt : Nat → AttemptOutcome Unit ε)
    (sdur tdur : Nat → Nat) (ses tes : Nat → ε) (se te : ε) (sk tk : Nat)
    (hs1 : ∀ i, i < sk → satt i = AttemptOutcome.recoverable (ses i))
    (hs2 : satt sk = AttemptOutcome.fatal se)
    (hs3 : ∀ i, i < sk → i + 2 ≤ spol.retry_count ∧
      checkElapsed spol sdur i < spol.retry_timeout)
    (ht1 : ∀ i, i < tk → tatt i = AttemptOutcome.recoverable (tes i))
    (ht2 : tatt tk = AttemptOutcome.fatal te)
    (ht3 : ∀ i, i < tk → i + 2 ≤ tpol.retry_count ∧
      checkElapsed tpol tdur i < tpol.retry_timeout) :
    read_source_rules_with_retries spol satt sdur =
      (Except.error (DevError.sourceError se), mkRetryTrace 0 sk) ∧
    apply_source_to_target_with_retries tpol tatt tdur =
      (Except.error (DevError.targetError te), mkRetryTrace 0 tk) := by
  have hceS : ∀ i, 0 + Finset.sum (Finset.range (i + 1)) (fun x => sdur (0 + x)) +
      i * spol.retry_delay = checkElapsed spol sdur i := by
    intro i
    have : Finset.sum (Finset.range (i + 1)) (fun x => sdur (0 + x)) =
        Finset.sum (Finset.range (i + 1)) sdur :=
      Finset.sum_congr rfl (fun x _ => by rw [Nat.zero_add])
    rw [Nat.zero_add, this, checkElapsed]
  have hceT : ∀ i, 0 + Finset.sum (Finset.range (i + 1)) (fun x => tdur (0 + x)) +
      i * tpol.retry_delay = checkElapsed tpol tdur i := by
    intro i
    have : Finset.sum (Finset.range (i + 1)) (fun x => tdur (0 + x)) =
        Finset.sum (Finset.range (i + 1)) tdur :=
      Finset.sum_congr rfl (fun x _ => by rw [Nat.zero_add])
    rw [Nat.zero_add, this, checkElapsed]
  have hsrc := retryGo_fatal spol satt sdur ses se sk 0 spol.retry_count 0
    (fun i hi => by rw [Nat.zero_add]; exact hs1 i hi)
    (by rw [Nat.zero_add]; exact hs2)
    (fun i hi => by rw [hceS i]; exact hs3 i hi)
  have htgt := retryGo_fatal tpol tatt tdur tes te tk 0 tpol.retry_count 0
    (fun i hi => by rw [Nat.zero_add]; exact ht1 i hi)
    (by rw [Nat.zero_add]; exact ht2)
    (fun i hi => by rw [hceT i]; exact ht3 i hi)
  constructor
  · rw [read_source_rules_with_retries, retryPhase, hsrc]
  · rw [apply_source_to_target_with_retries, retryPhase, htgt]

/-- Witness for C4: a source whose first attempt is fatal aborts after a
single attempt although 3 are configured; a target whose second attempt
is fatal aborts after two attempts although 5 are configured and ample
time remains. -/
theorem fatal_short_circuit_spec_witness :
    read_source_rules_with_retries ⟨3, 1000, 10⟩
      (fun _ => AttemptOutcome.fatal (α := Unit) 7) (fun _ => 1) =
      (Except.error (DevError.sourceError 7), mkRetryTrace 0 0) ∧
    apply_source_to_target_with_retries ⟨5, 1000, 10⟩
      (fun n => if n = 0 then AttemptOutcome.recoverable (α := Unit) 5
        else AttemptOutcome.fatal 9) (fun _ => 1) =
      (Except.error (DevError.targetError 9), mkRetryTrace 0 1) :=
  fatal_short_circuit_spec ⟨3, 1000, 10⟩ ⟨5, 1000, 10⟩
    (fun _ => AttemptOutcome.fatal 7)
    (fun n => if n = 0 then AttemptOutcome.recoverable 5 else AttemptOutcome.fatal 9)
    (fun _ => 1) (fun _ => 1) (fun _ => 0) (fun _ => 5) 7 9 0 1
    (by decide) rfl (by decide) (by decide) (by decide) (by decide)
